import Mathlib

set_option maxRecDepth 8000

/-! A verification model of the StepFile_ReadData parse-session builder,
the STEP file reader core of Open CASCADE.  The class declaration and its
documented flex/bison example live in src/src/StepFile/StepFile_ReadData.hxx;
the method bodies themselves are not part of this repository snapshot, so
each operation is modelled from the specification (and from the worked
example in the header, which is authoritative where it pins behaviour), as
noted on each definition. -/

/-- Modelled from the spec: the lexical/structural kinds of a parsed
argument (the Interface_ParamType enumeration referenced by the source
header; its own header is not in the snapshot).  ParamMisc is the
error-placeholder kind, ParamVoid the omitted value, ParamSub the
sub-list marker, ParamIdent the identifier reference, ParamText quoted
text, ParamEnum an enumeration token. -/
inductive Interface_ParamType where
  | ParamMisc
  | ParamInteger
  | ParamReal
  | ParamIdent
  | ParamVoid
  | ParamText
  | ParamEnum
  | ParamLogical
  | ParamSub
  | ParamHexa
  | ParamBinary
  deriving DecidableEq

/-- Modelled from the spec: one parsed parameter value, a structural kind
tag plus the interned text it carries (the Argument node of the source;
its next link is realised by list position). -/
structure Argument where
  kind : Interface_ParamType
  value : String
  deriving DecidableEq

/-- Modelled from the spec: one record (a parsed entity): identifier,
type-name and the ordered argument chain.  The source stores text slices
(char pointers); an absent identifier or type-name is the empty string,
as in the source header example where a record before RecordType has an
empty type.  The flat-list next link is realised by list position. -/
structure Record where
  ident : String
  typ : String
  args : List Argument
  deriving DecidableEq

/-- Modelled from the spec: the Parse Session state of StepFile_ReadData.
Fields mirror the private fields of the class declaration: counters
myNbRec / myNbHead / myNbPar, the sub-list counter myNumSub, the
error-argument-in-progress flag myErrorArg, the last interned text
myResText, the type of the last record read myCurrType, the pending
argument kind myTypeArg, the print mode myModePrint, the current record
under construction myCurRec, the chain of suspended spawning records for
open sub-lists (the source realises it through the next pointers of
sub-records) mySubStack, the scope stack myScopes, the flat record list
myRecords (myFirstRec .. myLastRec), and the error log myErrors.
myInHead is the header-section flag consulted when counting finalized
records (spec section 4.2); the header section opens the stream, so it
starts true and FinalOfHead ends it. -/
structure StepFile_ReadData where
  myNbRec : Nat
  myNbHead : Nat
  myNbPar : Nat
  myNumSub : Nat
  myErrorArg : Bool
  myInHead : Bool
  myModePrint : Nat
  myResText : String
  myCurrType : String
  myTypeArg : Interface_ParamType
  myCurRec : Option Record
  mySubStack : List Record
  myScopes : List (Option Record)
  myRecords : List Record
  myErrors : List String
  deriving DecidableEq

/-- Modelled from the spec: the freshly constructed session, all arenas
empty, header section open. -/
def emptyReadData : StepFile_ReadData :=
  { myNbRec := 0
    myNbHead := 0
    myNbPar := 0
    myNumSub := 0
    myErrorArg := false
    myInHead := true
    myModePrint := 0
    myResText := ""
    myCurrType := ""
    myTypeArg := Interface_ParamType.ParamMisc
    myCurRec := none
    mySubStack := []
    myScopes := []
    myRecords := []
    myErrors := [] }

/-- Modelled from the spec: AddError appends one diagnostic message to the
append-only error log. -/
def StepFile_ReadData.AddError (s : StepFile_ReadData) (m : String) : StepFile_ReadData :=
  { s with myErrors := s.myErrors ++ [m] }

/-- Modelled from the spec: CreateNewText records the text just produced
by the lexer as the current text value (the character-page mechanics of
the text arena are modelled separately by TextArena below). -/
def StepFile_ReadData.CreateNewText (s : StepFile_ReadData) (t : String) : StepFile_ReadData :=
  { s with myResText := t }

/-- Modelled from the spec: RecordIdent begins a record with the last
interned text as identifier and makes it current; if a record is already
pending this is a protocol violation reported as a diagnostic rather than
a silent overwrite. -/
def StepFile_ReadData.RecordIdent (s : StepFile_ReadData) : StepFile_ReadData :=
  match s.myCurRec with
  | some _ => s.AddError "Record identifier while a record is already pending"
  | none => { s with myCurRec := some { ident := s.myResText, typ := "", args := [] } }

/-- Modelled from the spec: RecordType attaches the last interned text as
the type-name of the current record and remembers it as the type of the
last record read (myCurrType).  When no record is pending (header
entities carry no identifier) it creates the record with an absent
identifier first, per the myYaRec field documentation. -/
def StepFile_ReadData.RecordType (s : StepFile_ReadData) : StepFile_ReadData :=
  match s.myCurRec with
  | some c => { s with myCurRec := some { c with typ := s.myResText }, myCurrType := s.myResText }
  | none =>
      { s with myCurRec := some { ident := "", typ := s.myResText, args := [] },
               myCurrType := s.myResText }

/-- Modelled from the spec: RecordListStart on a nested list begins a
synthetic sub-record.  Per the header example (steps 12 and 16 of the
worked example): the new record gets the generated identifier "$n" and
the type of the last record read, the spawning record is suspended (the
source keeps it as the next of the sub-record), and the sub-record
becomes current.  Called without a current record it is a protocol
violation, reported and otherwise ignored.  The first RecordListStart
after RecordType (the opening bracket of the ordinary argument list) does
nothing in the source and is not modelled as an operation. -/
def StepFile_ReadData.RecordListStart (s : StepFile_ReadData) : StepFile_ReadData :=
  match s.myCurRec with
  | some c =>
      { s with myNumSub := s.myNumSub + 1,
               myCurRec := some { ident := "$" ++ toString (s.myNumSub + 1),
                                  typ := s.myCurrType, args := [] },
               mySubStack := c :: s.mySubStack }
  | none => s.AddError "Sub-list start without a current record"

/-- Modelled from the spec: SetTypeArg records the kind of the argument
about to be created. -/
def StepFile_ReadData.SetTypeArg (s : StepFile_ReadData) (k : Interface_ParamType) : StepFile_ReadData :=
  { s with myTypeArg := k }

/-- Modelled from the spec: CreateNewArg appends one argument of the
pending kind carrying the last interned text at the tail of the current
record's argument chain and counts it; without a current record it is a
protocol violation, reported and otherwise ignored. -/
def StepFile_ReadData.CreateNewArg (s : StepFile_ReadData) : StepFile_ReadData :=
  match s.myCurRec with
  | some c =>
      { s with myCurRec := some { c with args := c.args ++ [{ kind := s.myTypeArg, value := s.myResText }] },
               myNbPar := s.myNbPar + 1 }
  | none => s.AddError "Argument without a current record"

/-- Modelled from the spec: CreateErrorArg coalesces a run of erroneous
tokens into a single error-placeholder argument: the first error token of
a run appends one ParamMisc argument and raises the
error-argument-in-progress flag; while the flag is up, further error
tokens only update the text of that last argument. -/
def StepFile_ReadData.CreateErrorArg (s : StepFile_ReadData) : StepFile_ReadData :=
  match s.myCurRec with
  | some c =>
      if s.myErrorArg then
        { s with myCurRec := some { c with args := c.args.dropLast ++ [{ kind := Interface_ParamType.ParamMisc, value := s.myResText }] } }
      else
        { s with myCurRec := some { c with args := c.args ++ [{ kind := Interface_ParamType.ParamMisc, value := s.myResText }] },
                 myErrorArg := true,
                 myNbPar := s.myNbPar + 1 }
  | none => s.AddError "Error argument without a current record"

/-- Modelled from the spec: PrepareNewArg is invoked at each argument
separator; its correctness-relevant effect is to reset the
error-argument-in-progress mode so the next argument position starts a
fresh run (the argument-count control of the source is diagnostic
only). -/
def StepFile_ReadData.PrepareNewArg (s : StepFile_ReadData) : StepFile_ReadData :=
  { s with myErrorArg := false }

/-- Modelled from the spec: RecordNewEntity finalizes the current record:
it is appended to the flat sequential list and counted (against the
header count too while the header section is open).  If the record was a
sub-record (a spawning record is suspended), the spawner is restored as
current and, per step 16 of the header example, receives a new sub-list
marker argument referencing the finalized sub-record by its identifier;
at top level the session is left with no pending record.  Finalizing with
no pending record is a protocol violation, reported and otherwise
ignored. -/
def StepFile_ReadData.RecordNewEntity (s : StepFile_ReadData) : StepFile_ReadData :=
  match s.myCurRec with
  | some c =>
      let s1 := { s with myRecords := s.myRecords ++ [c],
                         myNbRec := s.myNbRec + 1,
                         myNbHead := if s.myInHead then s.myNbHead + 1 else s.myNbHead,
                         myErrorArg := false }
      match s.mySubStack with
      | [] => { s1 with myCurRec := none }
      | outer :: rest =>
          { s1 with myCurRec := some { outer with args := outer.args ++ [{ kind := Interface_ParamType.ParamSub, value := c.ident }] },
                    mySubStack := rest }
  | none => s.AddError "End of record without a current record"

/-- Modelled from the spec: FinalOfHead ends the header section; records
finalized from here on are body records. -/
def StepFile_ReadData.FinalOfHead (s : StepFile_ReadData) : StepFile_ReadData :=
  { s with myInHead := false }

/-- Modelled from the spec: AddNewScope pushes a scope anchoring the
current record. -/
def StepFile_ReadData.AddNewScope (s : StepFile_ReadData) : StepFile_ReadData :=
  { s with myScopes := s.myCurRec :: s.myScopes }

/-- Modelled from the spec: FinalOfScope pops the innermost scope and
restores its anchored record as current.  Closing with no open scope is a
protocol violation: exactly one diagnostic is logged and the builder
continues at top level, otherwise unchanged. -/
def StepFile_ReadData.FinalOfScope (s : StepFile_ReadData) : StepFile_ReadData :=
  match s.myScopes with
  | [] => s.AddError "End of scope without an open scope"
  | a :: rest => { s with myCurRec := a, myScopes := rest }

/-- Modelled from the spec: SetModePrint stores the trace verbosity
level; printing is a diagnostic dump with no effect on the parse state. -/
def StepFile_ReadData.SetModePrint (s : StepFile_ReadData) (m : Nat) : StepFile_ReadData :=
  { s with myModePrint := m }

/-- Modelled from the spec: GetModePrint returns the trace verbosity
level. -/
def StepFile_ReadData.GetModePrint (s : StepFile_ReadData) : Nat :=
  s.myModePrint

/-- Modelled from the spec: GetNbRecord returns the total number of
records read. -/
def StepFile_ReadData.GetNbRecord (s : StepFile_ReadData) : Nat :=
  s.myNbRec

/-- Modelled from the spec: GetFileNbR returns the file counters: the
header record count and the body-only record count (records created
purely for header metadata are excluded from the body count).  The page
counter of the source signature is diagnostic only and not modelled. -/
def StepFile_ReadData.GetFileNbR (s : StepFile_ReadData) : Nat × Nat :=
  (s.myNbHead, s.myNbRec - s.myNbHead)

/-- Modelled from the spec: GetLastError returns the most recently
recorded diagnostic, if any. -/
def StepFile_ReadData.GetLastError (s : StepFile_ReadData) : Option String :=
  s.myErrors.getLast?

/-- Modelled from the spec: ErrorHandle drains every logged message, in
original insertion order, into the supplied diagnostic sink (the
Interface_Check of the source, modelled as the list of messages it has
received).  The method is const in the source: the log is not cleared. -/
def StepFile_ReadData.ErrorHandle (s : StepFile_ReadData) (check : List String) : List String :=
  check ++ s.myErrors

/-- Modelled from the spec: GetRecordDescription for the read-back walk,
with an explicit cursor (the index of the record in the flat list).  It
yields the identifier, type-name and argument count of the record under
the cursor, and signals exhaustion (cursor moved past the last record) by
returning none instead of data. -/
def StepFile_ReadData.GetRecordDescription (s : StepFile_ReadData) (i : Nat) :
    Option (String × String × Nat) :=
  (s.myRecords.get? i).map fun r => (r.ident, r.typ, r.args.length)

/-- Modelled from the spec: NextRecord advances the read-back cursor to
the next record of the flat list. -/
def NextRecord (i : Nat) : Nat :=
  i + 1

/-- Modelled from the spec: GetArgDescription yields kind and text of the
argument under the argument cursor of the record under the record cursor,
and signals exhaustion of the argument chain by returning none. -/
def StepFile_ReadData.GetArgDescription (s : StepFile_ReadData) (i j : Nat) :
    Option (Interface_ParamType × String) :=
  (s.myRecords.get? i).bind fun r => (r.args.get? j).map fun a => (a.kind, a.value)

/-- Modelled from the spec: the incremental protocol events the driving
lexer and grammar send to the builder, each carrying the data the
corresponding source method consumes. -/
inductive ProtocolOp where
  | createNewText (t : String)
  | setTypeArg (k : Interface_ParamType)
  | recordIdent
  | recordType
  | recordListStart
  | createNewArg
  | createErrorArg
  | prepareNewArg
  | recordNewEntity
  | finalOfHead
  | addNewScope
  | finalOfScope
  | addError (m : String)
  | setModePrint (m : Nat)
  deriving DecidableEq

/-- Modelled from the spec: one protocol event applied to the session. -/
def stepOp (s : StepFile_ReadData) : ProtocolOp → StepFile_ReadData
  | ProtocolOp.createNewText t => s.CreateNewText t
  | ProtocolOp.setTypeArg k => s.SetTypeArg k
  | ProtocolOp.recordIdent => s.RecordIdent
  | ProtocolOp.recordType => s.RecordType
  | ProtocolOp.recordListStart => s.RecordListStart
  | ProtocolOp.createNewArg => s.CreateNewArg
  | ProtocolOp.createErrorArg => s.CreateErrorArg
  | ProtocolOp.prepareNewArg => s.PrepareNewArg
  | ProtocolOp.recordNewEntity => s.RecordNewEntity
  | ProtocolOp.finalOfHead => s.FinalOfHead
  | ProtocolOp.addNewScope => s.AddNewScope
  | ProtocolOp.finalOfScope => s.FinalOfScope
  | ProtocolOp.addError m => s.AddError m
  | ProtocolOp.setModePrint m => s.SetModePrint m

/-- Modelled from the spec: a whole sequence of protocol events applied
in order. -/
def runOps (s : StepFile_ReadData) : List ProtocolOp → StepFile_ReadData
  | [] => s
  | op :: rest => runOps (stepOp s op) rest

theorem runOps_append (s : StepFile_ReadData) (l1 l2 : List ProtocolOp) :
    runOps s (l1 ++ l2) = runOps (runOps s l1) l2 := by
  induction l1 generalizing s with
  | nil => rfl
  | cons op rest ih => simp [runOps, ih]

/-- Modelled from the spec: one fixed-capacity characters page of the text
arena: its contents so far (the cursor is the length) and its capacity. -/
structure CharactersPage where
  chars : List Char
  cap : Nat
  deriving DecidableEq

/-- Modelled from the spec: a text slice: owning page (stable index in
allocation order), offset and length. -/
structure TextSlice where
  page : Nat
  off : Nat
  len : Nat
  deriving DecidableEq

/-- Modelled from the spec: the text arena: the page capacity fixed at
construction and the chain of allocated pages, the last one current. -/
structure TextArena where
  maxChar : Nat
  pages : List CharactersPage
  deriving DecidableEq

/-- Modelled from the spec: the page-management part of CreateNewText:
the bytes are copied whole into the current page; if they would exceed
its remaining capacity (or no page exists yet) a fresh page is allocated
first and receives the whole value, so a slice never crosses a page
boundary. -/
def TextArena.createNewText (a : TextArena) (t : List Char) : TextArena × TextSlice :=
  match a.pages.getLast? with
  | some p =>
      if p.chars.length + t.length ≤ p.cap then
        ({ a with pages := a.pages.dropLast ++ [{ p with chars := p.chars ++ t }] },
         { page := a.pages.length - 1, off := p.chars.length, len := t.length })
      else
        ({ a with pages := a.pages ++ [{ chars := t, cap := max a.maxChar t.length }] },
         { page := a.pages.length, off := 0, len := t.length })
  | none =>
      ({ a with pages := [{ chars := t, cap := max a.maxChar t.length }] },
       { page := 0, off := 0, len := t.length })

/-- Modelled from the spec: reading a slice back: the bytes of its owning
page from its offset for its length. -/
def TextArena.readSlice (a : TextArena) (sl : TextSlice) : List Char :=
  (((a.pages.get? sl.page).getD { chars := [], cap := 0 }).chars.drop sl.off).take sl.len

/-- Modelled from the spec: a slice is valid when its owning page exists
and it lies inside the interned contents of that page. -/
def TextArena.validSlice (a : TextArena) (sl : TextSlice) : Bool :=
  match a.pages.get? sl.page with
  | some p => sl.off + sl.len ≤ p.chars.length
  | none => false

/-- Modelled from the spec: the abstraction of the session a well-formed
driving protocol is defined over: whether a record is pending, how many
sub-lists are open, and the pending argument kind. -/
structure WfSt where
  pending : Bool
  subDepth : Nat
  argKind : Interface_ParamType
  deriving DecidableEq

/-- Modelled from the spec: the well-formedness guard of one protocol
event (spec section 6) together with the abstract state after it: a
record begins only when none is pending; type, arguments, sub-lists and
finalization require a pending record; sub-list markers arise only
through RecordNewEntity, never as directly pushed arguments; scope events
are outside the driving protocol enumerated in section 6. -/
def wfStep (st : WfSt) : ProtocolOp → Bool × WfSt
  | ProtocolOp.createNewText _ => (true, st)
  | ProtocolOp.setTypeArg k => (true, { st with argKind := k })
  | ProtocolOp.recordIdent => (!st.pending, { st with pending := true })
  | ProtocolOp.recordType => (true, { st with pending := true })
  | ProtocolOp.recordListStart => (st.pending, { st with subDepth := st.subDepth + 1 })
  | ProtocolOp.createNewArg =>
      (st.pending && !(st.argKind == Interface_ParamType.ParamSub), st)
  | ProtocolOp.createErrorArg => (st.pending, st)
  | ProtocolOp.prepareNewArg => (true, st)
  | ProtocolOp.recordNewEntity =>
      (st.pending,
        match st.subDepth with
        | 0 => { st with pending := false }
        | d + 1 => { st with subDepth := d })
  | ProtocolOp.finalOfHead => (true, st)
  | ProtocolOp.addNewScope => (false, st)
  | ProtocolOp.finalOfScope => (false, st)
  | ProtocolOp.addError _ => (true, st)
  | ProtocolOp.setModePrint _ => (true, st)

/-- Modelled from the spec: well-formedness of a whole protocol event
sequence from a given abstract state. -/
def wfOps : WfSt → List ProtocolOp → Bool
  | _, [] => true
  | st, op :: rest => (wfStep st op).1 && wfOps (wfStep st op).2 rest

/-- Modelled from the spec: the abstract state of the fresh session. -/
def wfInit : WfSt :=
  { pending := false, subDepth := 0, argKind := Interface_ParamType.ParamMisc }

/-- The abstract protocol state describes the session. -/
def Align (st : WfSt) (s : StepFile_ReadData) : Prop :=
  st.pending = s.myCurRec.isSome
  ∧ st.subDepth = s.mySubStack.length
  ∧ st.argKind = s.myTypeArg

theorem align_init : Align wfInit emptyReadData := by
  refine ⟨rfl, rfl, rfl⟩

theorem align_step {st : StepFile_ReadData} {w : WfSt} (op : ProtocolOp)
    (hA : Align w st) (hok : (wfStep w op).1 = true) :
    Align (wfStep w op).2 (stepOp st op) := by
  obtain ⟨h1, h2, h3⟩ := hA
  cases op with
  | createNewText t =>
      exact ⟨h1, h2, h3⟩
  | setTypeArg k =>
      exact ⟨h1, h2, rfl⟩
  | recordIdent =>
      simp only [wfStep, Bool.not_eq_true'] at hok
      rw [hok] at h1
      cases hc : st.myCurRec with
      | some c => rw [hc] at h1; simp at h1
      | none => simp [Align, wfStep, stepOp, StepFile_ReadData.RecordIdent, hc, h2, h3]
  | recordType =>
      cases hc : st.myCurRec with
      | some c => simp [Align, wfStep, stepOp, StepFile_ReadData.RecordType, hc, h2, h3]
      | none => simp [Align, wfStep, stepOp, StepFile_ReadData.RecordType, hc, h2, h3]
  | recordListStart =>
      simp only [wfStep] at hok
      rw [hok] at h1
      cases hc : st.myCurRec with
      | none => rw [hc] at h1; simp at h1
      | some c =>
          simp [Align, wfStep, stepOp, StepFile_ReadData.RecordListStart, hc, h2, h3, hok]
  | createNewArg =>
      simp only [wfStep, Bool.and_eq_true] at hok
      rw [hok.1] at h1
      cases hc : st.myCurRec with
      | none => rw [hc] at h1; simp at h1
      | some c =>
          simp [Align, wfStep, stepOp, StepFile_ReadData.CreateNewArg, hc, h2, h3, hok.1]
  | createErrorArg =>
      simp only [wfStep] at hok
      rw [hok] at h1
      cases hc : st.myCurRec with
      | none => rw [hc] at h1; simp at h1
      | some c =>
          cases he : st.myErrorArg <;>
            simp [Align, wfStep, stepOp, StepFile_ReadData.CreateErrorArg, hc, he, h2, h3, hok]
  | prepareNewArg =>
      exact ⟨h1, h2, h3⟩
  | recordNewEntity =>
      simp only [wfStep] at hok
      rw [hok] at h1
      cases hc : st.myCurRec with
      | none => rw [hc] at h1; simp at h1
      | some c =>
          cases hs : st.mySubStack with
          | nil =>
              rw [hs] at h2
              simp at h2
              simp [Align, wfStep, stepOp, StepFile_ReadData.RecordNewEntity, hc, hs, h2, h3]
          | cons outer rest =>
              rw [hs] at h2
              simp [Align, wfStep, stepOp, StepFile_ReadData.RecordNewEntity, hc, hs, h2, h3, hok]
  | finalOfHead =>
      exact ⟨h1, h2, h3⟩
  | addNewScope =>
      simp [wfStep] at hok
  | finalOfScope =>
      simp [wfStep] at hok
  | addError m =>
      exact ⟨h1, h2, h3⟩
  | setModePrint m =>
      exact ⟨h1, h2, h3⟩

/-- A sub-list-marker argument resolves inside a list of records when
some record there carries the identifier the marker references. -/
def argResolves (pre : List Record) (a : Argument) : Prop :=
  a.kind = Interface_ParamType.ParamSub → ∃ r ∈ pre, r.ident = a.value

/-- Every sub-list-marker argument of the record resolves inside the
given list of records. -/
def recOk (pre : List Record) (r : Record) : Prop :=
  ∀ a ∈ r.args, argResolves pre a

/-- The no-forward-reference invariant: each record of the flat list only
references records placed strictly before it, and the records still under
construction (current record and suspended spawners) only reference
records already in the flat list. -/
def noForwardRef (s : StepFile_ReadData) : Prop :=
  (∀ i r, s.myRecords.get? i = some r → recOk (s.myRecords.take i) r)
  ∧ (∀ c, s.myCurRec = some c → recOk s.myRecords c)
  ∧ (∀ c ∈ s.mySubStack, recOk s.myRecords c)

theorem recOk_mono {pre post : List Record} {r : Record} (h : recOk pre r) :
    recOk (pre ++ post) r := by
  intro a ha hk
  obtain ⟨r', hr', hi⟩ := h a ha hk
  exact ⟨r', List.mem_append_left _ hr', hi⟩

theorem noFwd_init : noForwardRef emptyReadData := by
  refine ⟨?_, ?_, ?_⟩
  · intro i r h
    simp [emptyReadData] at h
  · intro c h
    simp [emptyReadData] at h
  · intro c h
    simp [emptyReadData] at h

theorem noFwd_step {st : StepFile_ReadData} {w : WfSt} (op : ProtocolOp)
    (hA : Align w st) (hok : (wfStep w op).1 = true) (hN : noForwardRef st) :
    noForwardRef (stepOp st op) := by
  obtain ⟨hA1, hA2, hA3⟩ := hA
  obtain ⟨h1, h2, h3⟩ := hN
  cases op with
  | createNewText t =>
      exact ⟨h1, h2, h3⟩
  | setTypeArg k =>
      exact ⟨h1, h2, h3⟩
  | recordIdent =>
      simp only [wfStep, Bool.not_eq_true'] at hok
      rw [hok] at hA1
      cases hc : st.myCurRec with
      | some c => rw [hc] at hA1; simp at hA1
      | none =>
          simp only [stepOp, StepFile_ReadData.RecordIdent, hc]
          refine ⟨h1, ?_, h3⟩
          intro c' hcc
          have hc' := Option.some.inj hcc
          subst hc'
          intro a ha
          exact (List.not_mem_nil a ha).elim
  | recordType =>
      cases hc : st.myCurRec with
      | some c =>
          simp only [stepOp, StepFile_ReadData.RecordType, hc]
          refine ⟨h1, ?_, h3⟩
          intro c' hcc
          have hc' := Option.some.inj hcc
          subst hc'
          intro a ha
          exact h2 c hc a ha
      | none =>
          simp only [stepOp, StepFile_ReadData.RecordType, hc]
          refine ⟨h1, ?_, h3⟩
          intro c' hcc
          have hc' := Option.some.inj hcc
          subst hc'
          intro a ha
          exact (List.not_mem_nil a ha).elim
  | recordListStart =>
      simp only [wfStep] at hok
      rw [hok] at hA1
      cases hc : st.myCurRec with
      | none => rw [hc] at hA1; simp at hA1
      | some c =>
          simp only [stepOp, StepFile_ReadData.RecordListStart, hc]
          refine ⟨h1, ?_, ?_⟩
          · intro c' hcc
            have hc' := Option.some.inj hcc
            subst hc'
            intro a ha
            exact (List.not_mem_nil a ha).elim
          · intro c' hcc
            rcases List.mem_cons.1 hcc with hl | hr
            · rw [hl]; exact h2 c hc
            · exact h3 c' hr
  | createNewArg =>
      simp only [wfStep, Bool.and_eq_true] at hok
      rw [hok.1] at hA1
      cases hc : st.myCurRec with
      | none => rw [hc] at hA1; simp at hA1
      | some c =>
          simp only [stepOp, StepFile_ReadData.CreateNewArg, hc]
          refine ⟨h1, ?_, h3⟩
          intro c' hcc
          have hc' := Option.some.inj hcc
          subst hc'
          intro a ha
          rcases List.mem_append.1 ha with hl | hr
          · exact h2 c hc a hl
          · intro hk
            rw [List.mem_singleton.1 hr] at hk
            simp only at hk
            rw [← hA3] at hk
            rw [hk] at hok
            simp at hok
  | createErrorArg =>
      simp only [wfStep] at hok
      rw [hok] at hA1
      cases hc : st.myCurRec with
      | none => rw [hc] at hA1; simp at hA1
      | some c =>
          cases he : st.myErrorArg with
          | false =>
              simp only [stepOp, StepFile_ReadData.CreateErrorArg, hc, he, if_neg Bool.false_ne_true]
              refine ⟨h1, ?_, h3⟩
              intro c' hcc
              have hc' := Option.some.inj hcc
              subst hc'
              intro a ha
              rcases List.mem_append.1 ha with hl | hr
              · exact h2 c hc a hl
              · intro hk
                rw [List.mem_singleton.1 hr] at hk
                simp at hk
          | true =>
              simp only [stepOp, StepFile_ReadData.CreateErrorArg, hc, he, if_pos rfl]
              refine ⟨h1, ?_, h3⟩
              intro c' hcc
              have hc' := Option.some.inj hcc
              subst hc'
              intro a ha
              rcases List.mem_append.1 ha with hl | hr
              · have ham : a ∈ c.args := by
                  rw [List.dropLast_eq_take] at hl
                  exact List.take_subset _ _ hl
                exact h2 c hc a ham
              · intro hk
                rw [List.mem_singleton.1 hr] at hk
                simp at hk
  | prepareNewArg =>
      exact ⟨h1, h2, h3⟩
  | recordNewEntity =>
      simp only [wfStep] at hok
      rw [hok] at hA1
      cases hc : st.myCurRec with
      | none => rw [hc] at hA1; simp at hA1
      | some c =>
          have hcok : recOk st.myRecords c := h2 c hc
          have hstored : ∀ i r, (st.myRecords ++ [c]).get? i = some r →
              recOk ((st.myRecords ++ [c]).take i) r := by
            intro i r hir
            rcases Nat.lt_or_ge i st.myRecords.length with hi | hi
            · rw [List.get?_append hi] at hir
              rw [List.take_append_of_le_length (Nat.le_of_lt hi)]
              exact h1 i r hir
            · rcases Nat.eq_or_lt_of_le hi with hi' | hi'
              · rw [← hi'] at hir
                rw [List.get?_concat_length] at hir
                cases hir
                rw [← hi', List.take_left]
                exact hcok
              · rw [List.get?_append_right hi] at hir
                have hge : 1 ≤ i - st.myRecords.length := by omega
                rw [List.get?_eq_none.2 (by simpa using hge)] at hir
                cases hir
          cases hs : st.mySubStack with
          | nil =>
              simp only [stepOp, StepFile_ReadData.RecordNewEntity, hc, hs]
              refine ⟨hstored, ?_, ?_⟩
              · intro c' hcc
                cases hcc
              · intro c' hcc
                exact (List.not_mem_nil c' hcc).elim
          | cons outer rest =>
              simp only [stepOp, StepFile_ReadData.RecordNewEntity, hc, hs]
              refine ⟨hstored, ?_, ?_⟩
              · intro c' hcc
                have hc' := Option.some.inj hcc
                subst hc'
                intro a ha
                rcases List.mem_append.1 ha with hl | hr
                · have houter := h3 outer (by rw [hs]; exact List.mem_cons_self _ _) a hl
                  intro hk
                  obtain ⟨r', hr', hi⟩ := houter hk
                  exact ⟨r', List.mem_append_left _ hr', hi⟩
                · intro _
                  refine ⟨c, List.mem_append_right _ (List.mem_singleton_self c), ?_⟩
                  rw [List.mem_singleton.1 hr]
              · intro c' hcc
                have hmem : c' ∈ st.mySubStack := by
                  rw [hs]; exact List.mem_cons_of_mem _ hcc
                exact recOk_mono (h3 c' hmem)
  | finalOfHead =>
      exact ⟨h1, h2, h3⟩
  | addNewScope =>
      simp [wfStep] at hok
  | finalOfScope =>
      simp [wfStep] at hok
  | addError m =>
      exact ⟨h1, h2, h3⟩
  | setModePrint m =>
      exact ⟨h1, h2, h3⟩

theorem wf_run_noFwd (ops : List ProtocolOp) :
    ∀ (w : WfSt) (st : StepFile_ReadData), Align w st → noForwardRef st →
      wfOps w ops = true → noForwardRef (runOps st ops) := by
  induction ops with
  | nil => intro w st _ hN _; exact hN
  | cons op rest ih =>
      intro w st hA hN hwf
      simp only [wfOps, Bool.and_eq_true] at hwf
      exact ih (wfStep w op).2 (stepOp st op) (align_step op hA hwf.1)
        (noFwd_step op hA hwf.1 hN) hwf.2

/-- The number of RecordNewEntity events in a protocol sequence. -/
def countNewEnt : List ProtocolOp → Nat
  | [] => 0
  | ProtocolOp.recordNewEntity :: rest => countNewEnt rest + 1
  | _ :: rest => countNewEnt rest

theorem step_records_other (st : StepFile_ReadData) (op : ProtocolOp)
    (hne : op ≠ ProtocolOp.recordNewEntity) :
    (stepOp st op).myRecords = st.myRecords ∧ (stepOp st op).myNbRec = st.myNbRec ∧
      (stepOp st op).myNbHead = st.myNbHead := by
  cases op with
  | createNewText t => exact ⟨rfl, rfl, rfl⟩
  | setTypeArg k => exact ⟨rfl, rfl, rfl⟩
  | recordIdent =>
      cases hc : st.myCurRec <;>
        simp [stepOp, StepFile_ReadData.RecordIdent, StepFile_ReadData.AddError, hc]
  | recordType =>
      cases hc : st.myCurRec <;>
        simp [stepOp, StepFile_ReadData.RecordType, hc]
  | recordListStart =>
      cases hc : st.myCurRec <;>
        simp [stepOp, StepFile_ReadData.RecordListStart, StepFile_ReadData.AddError, hc]
  | createNewArg =>
      cases hc : st.myCurRec <;>
        simp [stepOp, StepFile_ReadData.CreateNewArg, StepFile_ReadData.AddError, hc]
  | createErrorArg =>
      cases hc : st.myCurRec with
      | none => simp [stepOp, StepFile_ReadData.CreateErrorArg, StepFile_ReadData.AddError, hc]
      | some c =>
          cases he : st.myErrorArg <;>
            simp [stepOp, StepFile_ReadData.CreateErrorArg, hc, he]
  | prepareNewArg => exact ⟨rfl, rfl, rfl⟩
  | recordNewEntity => exact absurd rfl hne
  | finalOfHead => exact ⟨rfl, rfl, rfl⟩
  | addNewScope => exact ⟨rfl, rfl, rfl⟩
  | finalOfScope =>
      cases hsc : st.myScopes <;>
        simp [stepOp, StepFile_ReadData.FinalOfScope, StepFile_ReadData.AddError, hsc]
  | addError m => exact ⟨rfl, rfl, rfl⟩
  | setModePrint m => exact ⟨rfl, rfl, rfl⟩

theorem step_records_newEnt (st : StepFile_ReadData) {c : Record}
    (hc : st.myCurRec = some c) :
    (stepOp st ProtocolOp.recordNewEntity).myRecords = st.myRecords ++ [c]
    ∧ (stepOp st ProtocolOp.recordNewEntity).myNbRec = st.myNbRec + 1 := by
  cases hs : st.mySubStack <;>
    simp [stepOp, StepFile_ReadData.RecordNewEntity, hc, hs]

theorem step_count {w : WfSt} {st : StepFile_ReadData} (op : ProtocolOp)
    (hA : Align w st) (hok : (wfStep w op).1 = true) :
    (stepOp st op).myRecords.length
      = st.myRecords.length + (if op = ProtocolOp.recordNewEntity then 1 else 0)
    ∧ (stepOp st op).myNbRec
      = st.myNbRec + (if op = ProtocolOp.recordNewEntity then 1 else 0) := by
  cases op with
  | recordNewEntity =>
      simp only [wfStep] at hok
      obtain ⟨hA1, _, _⟩ := hA
      rw [hok] at hA1
      cases hc : st.myCurRec with
      | none => rw [hc] at hA1; simp at hA1
      | some c =>
          obtain ⟨hr, hn⟩ := step_records_newEnt st hc
          rw [hr, hn]
          simp
  | createNewText t =>
      obtain ⟨hr, hn, _⟩ := step_records_other st (ProtocolOp.createNewText t)
        (by intro hfalse; cases hfalse)
      rw [hr, hn]; simp
  | setTypeArg k =>
      obtain ⟨hr, hn, _⟩ := step_records_other st (ProtocolOp.setTypeArg k)
        (by intro hfalse; cases hfalse)
      rw [hr, hn]; simp
  | recordIdent =>
      obtain ⟨hr, hn, _⟩ := step_records_other st ProtocolOp.recordIdent
        (by intro hfalse; cases hfalse)
      rw [hr, hn]; simp
  | recordType =>
      obtain ⟨hr, hn, _⟩ := step_records_other st ProtocolOp.recordType
        (by intro hfalse; cases hfalse)
      rw [hr, hn]; simp
  | recordListStart =>
      obtain ⟨hr, hn, _⟩ := step_records_other st ProtocolOp.recordListStart
        (by intro hfalse; cases hfalse)
      rw [hr, hn]; simp
  | createNewArg =>
      obtain ⟨hr, hn, _⟩ := step_records_other st ProtocolOp.createNewArg
        (by intro hfalse; cases hfalse)
      rw [hr, hn]; simp
  | createErrorArg =>
      obtain ⟨hr, hn, _⟩ := step_records_other st ProtocolOp.createErrorArg
        (by intro hfalse; cases hfalse)
      rw [hr, hn]; simp
  | prepareNewArg =>
      obtain ⟨hr, hn, _⟩ := step_records_other st ProtocolOp.prepareNewArg
        (by intro hfalse; cases hfalse)
      rw [hr, hn]; simp
  | finalOfHead =>
      obtain ⟨hr, hn, _⟩ := step_records_other st ProtocolOp.finalOfHead
        (by intro hfalse; cases hfalse)
      rw [hr, hn]; simp
  | addNewScope =>
      obtain ⟨hr, hn, _⟩ := step_records_other st ProtocolOp.addNewScope
        (by intro hfalse; cases hfalse)
      rw [hr, hn]; simp
  | finalOfScope =>
      obtain ⟨hr, hn, _⟩ := step_records_other st ProtocolOp.finalOfScope
        (by intro hfalse; cases hfalse)
      rw [hr, hn]; simp
  | addError m =>
      obtain ⟨hr, hn, _⟩ := step_records_other st (ProtocolOp.addError m)
        (by intro hfalse; cases hfalse)
      rw [hr, hn]; simp
  | setModePrint m =>
      obtain ⟨hr, hn, _⟩ := step_records_other st (ProtocolOp.setModePrint m)
        (by intro hfalse; cases hfalse)
      rw [hr, hn]; simp

theorem wf_run_count (ops : List ProtocolOp) :
    ∀ (w : WfSt) (st : StepFile_ReadData), Align w st → wfOps w ops = true →
      (runOps st ops).myRecords.length = st.myRecords.length + countNewEnt ops
      ∧ (runOps st ops).myNbRec = st.myNbRec + countNewEnt ops := by
  induction ops with
  | nil => intro w st _ _; exact ⟨rfl, rfl⟩
  | cons op rest ih =>
      intro w st hA hwf
      simp only [wfOps, Bool.and_eq_true] at hwf
      have hA' := align_step op hA hwf.1
      have hrest := ih (wfStep w op).2 (stepOp st op) hA' hwf.2
      obtain ⟨hr, hn⟩ := step_count op hA hwf.1
      have hrun : runOps st (op :: rest) = runOps (stepOp st op) rest := rfl
      constructor
      · rw [hrun, hrest.1, hr]
        cases op <;> simp [countNewEnt] <;> omega
      · rw [hrun, hrest.2, hn]
        cases op <;> simp [countNewEnt] <;> omega

theorem step_head_le (st : StepFile_ReadData) (op : ProtocolOp)
    (h : st.myNbHead ≤ st.myNbRec) :
    (stepOp st op).myNbHead ≤ (stepOp st op).myNbRec := by
  by_cases hop : op = ProtocolOp.recordNewEntity
  · rw [hop]
    cases hc : st.myCurRec with
    | none =>
        simp [stepOp, StepFile_ReadData.RecordNewEntity, StepFile_ReadData.AddError, hc, h]
    | some c =>
        cases hs : st.mySubStack <;> cases hh : st.myInHead <;>
          simp [stepOp, StepFile_ReadData.RecordNewEntity, hc, hs, hh] <;> omega
  · obtain ⟨_, hn, hh⟩ := step_records_other st op hop
    rw [hn, hh]
    exact h

theorem run_head_le (ops : List ProtocolOp) :
    ∀ st : StepFile_ReadData, st.myNbHead ≤ st.myNbRec →
      (runOps st ops).myNbHead ≤ (runOps st ops).myNbRec := by
  induction ops with
  | nil => intro st h; exact h
  | cons op rest ih => intro st h; exact ih (stepOp st op) (step_head_le st op h)

/-- Modelled from the spec: the protocol events of the worked scenario
(spec section 8 and the header example entity
"#123=ADVANCED_FACE((#124),#125,#125)" restricted to the calls the
scenario lists): intern "#123", begin the record, intern
"ADVANCED_FACE", set the type, begin the nested single-identifier
sub-list, push "#124" as identifier reference inside it, finalize the
sub-record, push "#125" twice as identifier references on the outer
record, finalize the outer record. -/
def scenarioOps : List ProtocolOp :=
  [ProtocolOp.createNewText "#123",
   ProtocolOp.recordIdent,
   ProtocolOp.createNewText "ADVANCED_FACE",
   ProtocolOp.recordType,
   ProtocolOp.recordListStart,
   ProtocolOp.createNewText "#124",
   ProtocolOp.setTypeArg Interface_ParamType.ParamIdent,
   ProtocolOp.createNewArg,
   ProtocolOp.recordNewEntity,
   ProtocolOp.createNewText "#125",
   ProtocolOp.setTypeArg Interface_ParamType.ParamIdent,
   ProtocolOp.createNewArg,
   ProtocolOp.createNewText "#125",
   ProtocolOp.setTypeArg Interface_ParamType.ParamIdent,
   ProtocolOp.createNewArg,
   ProtocolOp.recordNewEntity]

/-- Modelled from the spec: the synthetic sub-record the scenario
produces, first in the flat list: identifier "$1", the type of the last
record read ("ADVANCED_FACE", per steps 12 and 16 of the header example),
and the single identifier-reference argument "#124". -/
def scenarioSubRec : Record :=
  { ident := "$1", typ := "ADVANCED_FACE",
    args := [{ kind := Interface_ParamType.ParamIdent, value := "#124" }] }

/-- Modelled from the spec: the outer record the scenario produces,
second in the flat list: "#123" / "ADVANCED_FACE" with three arguments in
order: the sub-list marker referencing the sub-record "$1", then "#125"
twice. -/
def scenarioOuterRec : Record :=
  { ident := "#123", typ := "ADVANCED_FACE",
    args := [{ kind := Interface_ParamType.ParamSub, value := "$1" },
             { kind := Interface_ParamType.ParamIdent, value := "#125" },
             { kind := Interface_ParamType.ParamIdent, value := "#125" }] }

/-- C1, counterexample: the scenario does yield two records with the
sub-record first, but the sub-record's type-name is not absent: both
records carry the type-name "ADVANCED_FACE", because RecordListStart
creates the sub-record with the type of the last record read (header
example, step 12: it "creates a new record with \"$1\" ident and
\"ADVANCED_FACE\" type").  So the flat list of type-names is not the
claimed one with an absent (empty) sub-record type-name. -/
theorem scenario_subrecord_type_counterexample :
    (runOps emptyReadData scenarioOps).myRecords.map Record.typ
      = ["ADVANCED_FACE", "ADVANCED_FACE"]
    ∧ ¬ ((runOps emptyReadData scenarioOps).myRecords.map Record.typ
          = ["", "ADVANCED_FACE"]) := by
  exact ⟨rfl, by decide⟩

/-- C1, amended: executing the scenario on an empty session yields
exactly two records in the flat list: first the synthetic sub-record
"$1" with the inherited type-name "ADVANCED_FACE" and exactly one
identifier-reference argument "#124", then the outer record "#123" /
"ADVANCED_FACE" with exactly three arguments in order: a sub-list marker
referencing the sub-record "$1", then "#125", then "#125". -/
theorem scenario_two_records :
    (runOps emptyReadData scenarioOps).myRecords = [scenarioSubRec, scenarioOuterRec]
    ∧ (runOps emptyReadData scenarioOps).myRecords.length = 2
    ∧ scenarioSubRec.args.length = 1
    ∧ scenarioOuterRec.args.length = 3 := by
  exact ⟨rfl, rfl, rfl, rfl⟩

/-- C2: for every well-formed protocol sequence applied to the empty
session, the flat record list has exactly one entry per RecordNewEntity
call (header and body records counted together, GetNbRecord agreeing),
and the body-only count returned by GetFileNbR is the total record count
minus the header record count, the header count never exceeding the
total. -/
theorem record_count_equals_finalize_calls (ops : List ProtocolOp)
    (h : wfOps wfInit ops = true) :
    (runOps emptyReadData ops).myRecords.length = countNewEnt ops
    ∧ (runOps emptyReadData ops).GetNbRecord = countNewEnt ops
    ∧ ((runOps emptyReadData ops).GetFileNbR).2
        = (runOps emptyReadData ops).GetNbRecord - ((runOps emptyReadData ops).GetFileNbR).1
    ∧ ((runOps emptyReadData ops).GetFileNbR).1 ≤ (runOps emptyReadData ops).GetNbRecord := by
  obtain ⟨h1, h2⟩ := wf_run_count ops wfInit emptyReadData align_init h
  have hle := run_head_le ops emptyReadData (Nat.le_refl 0)
  refine ⟨?_, ?_, rfl, hle⟩
  · simpa [emptyReadData] using h1
  · simpa [StepFile_ReadData.GetNbRecord, emptyReadData] using h2

/-- C2, witness: the scenario sequence is well formed, contains two
RecordNewEntity calls and indeed produces a flat list of length two. -/
theorem record_count_witness :
    (runOps emptyReadData scenarioOps).myRecords.length = countNewEnt scenarioOps
    ∧ countNewEnt scenarioOps = 2 :=
  ⟨(record_count_equals_finalize_calls scenarioOps rfl).1, rfl⟩

/-- C4: for every well-formed protocol sequence applied to the empty
session and arbitrary sub-list nesting, every sub-list-marker argument of
a record of the flat list references a record placed strictly earlier in
the flat list (the sub-record precedes the record that spawned it): no
reference points forward. -/
theorem sub_records_precede_spawner (ops : List ProtocolOp)
    (h : wfOps wfInit ops = true) :
    ∀ i r, (runOps emptyReadData ops).myRecords.get? i = some r →
      ∀ a ∈ r.args, a.kind = Interface_ParamType.ParamSub →
        ∃ j r', j < i ∧ (runOps emptyReadData ops).myRecords.get? j = some r'
          ∧ r'.ident = a.value := by
  have hinv := wf_run_noFwd ops wfInit emptyReadData align_init noFwd_init h
  intro i r hir a ha hk
  obtain ⟨r', hr', hi⟩ := hinv.1 i r hir a ha hk
  obtain ⟨j, hj⟩ := List.get?_of_mem hr'
  have hjlt : j < (List.take i (runOps emptyReadData ops).myRecords).length := by
    by_contra hge
    rw [List.get?_eq_none.2 (Nat.le_of_not_lt hge)] at hj
    cases hj
  have hji : j < i := by
    rw [List.length_take] at hjlt
    omega
  refine ⟨j, r', hji, ?_, hi⟩
  rw [← List.get?_take hji]
  exact hj

/-- C4, witness: in the scenario, the sub-list marker "$1" carried by the
outer record (index 1 of the flat list) resolves to a record at a
strictly smaller index. -/
theorem sub_records_precede_spawner_witness :
    ∃ j r', j < 1 ∧ (runOps emptyReadData scenarioOps).myRecords.get? j = some r'
      ∧ r'.ident = "$1" :=
  sub_records_precede_spawner scenarioOps rfl 1 scenarioOuterRec rfl
    { kind := Interface_ParamType.ParamSub, value := "$1" } (by decide) rfl

/-- Modelled from the spec: the protocol events of one push_argument per
pair (kind, text): intern the text, set the argument kind, create the
argument. -/
def pushOps : List (Interface_ParamType × String) → List ProtocolOp
  | [] => []
  | (k, t) :: ps =>
      ProtocolOp.createNewText t :: ProtocolOp.setTypeArg k :: ProtocolOp.createNewArg ::
        pushOps ps

theorem run_pushOps (ps : List (Interface_ParamType × String)) :
    ∀ (s : StepFile_ReadData) (c : Record), s.myCurRec = some c →
      (runOps s (pushOps ps)).myCurRec
        = some { c with args := c.args ++ ps.map fun p => { kind := p.1, value := p.2 } }
      ∧ (runOps s (pushOps ps)).myRecords = s.myRecords
      ∧ (runOps s (pushOps ps)).mySubStack = s.mySubStack := by
  induction ps with
  | nil =>
      intro s c hc
      refine ⟨?_, rfl, rfl⟩
      rw [show runOps s (pushOps []) = s from rfl, hc]
      simp
  | cons p ps ih =>
      intro s c hc
      obtain ⟨k, t⟩ := p
      have hstep : runOps s (pushOps ((k, t) :: ps))
          = runOps (stepOp (stepOp (stepOp s (ProtocolOp.createNewText t))
              (ProtocolOp.setTypeArg k)) ProtocolOp.createNewArg) (pushOps ps) := rfl
      have hc3 : (stepOp (stepOp (stepOp s (ProtocolOp.createNewText t))
          (ProtocolOp.setTypeArg k)) ProtocolOp.createNewArg).myCurRec
            = some { c with args := c.args ++ [{ kind := k, value := t }] } := by
        simp [stepOp, StepFile_ReadData.CreateNewText, StepFile_ReadData.SetTypeArg,
          StepFile_ReadData.CreateNewArg, hc]
      obtain ⟨a1, a2, a3⟩ := ih _ _ hc3
      rw [hstep]
      refine ⟨?_, ?_, ?_⟩
      · rw [a1]
        simp
      · rw [a2]
        simp [stepOp, StepFile_ReadData.CreateNewText, StepFile_ReadData.SetTypeArg,
          StepFile_ReadData.CreateNewArg, hc]
      · rw [a3]
        simp [stepOp, StepFile_ReadData.CreateNewText, StepFile_ReadData.SetTypeArg,
          StepFile_ReadData.CreateNewArg, hc]

/-- C3: arguments appear in push order: CreateNewArg appends exactly one
argument at the tail of the current record's argument chain (and so does
the first error token of a run); no protocol event removes records
already in the flat list; the read-back traversal via GetArgDescription
returns exactly the stored argument chain in order; and a whole record
built from the empty session by one begin-record and a sequence of
pushes, then finalized, carries exactly the pushed kind/text pairs in
push order. -/
theorem argument_order_matches_push_order :
    (∀ (s : StepFile_ReadData) (c : Record), s.myCurRec = some c →
        s.CreateNewArg.myCurRec
          = some { c with args := c.args ++ [{ kind := s.myTypeArg, value := s.myResText }] })
    ∧ (∀ (s : StepFile_ReadData) (c : Record), s.myCurRec = some c → s.myErrorArg = false →
        s.CreateErrorArg.myCurRec
          = some { c with args := c.args
              ++ [{ kind := Interface_ParamType.ParamMisc, value := s.myResText }] })
    ∧ (∀ (s : StepFile_ReadData) (op : ProtocolOp),
        ∃ tail, (stepOp s op).myRecords = s.myRecords ++ tail)
    ∧ (∀ (s : StepFile_ReadData) (i j : Nat) (r : Record), s.myRecords.get? i = some r →
        s.GetArgDescription i j = (r.args.get? j).map fun a => (a.kind, a.value))
    ∧ (∀ (idt : String) (ps : List (Interface_ParamType × String)),
        (runOps emptyReadData (ProtocolOp.createNewText idt :: ProtocolOp.recordIdent ::
            (pushOps ps ++ [ProtocolOp.recordNewEntity]))).myRecords
          = [{ ident := idt, typ := "",
               args := ps.map fun p => { kind := p.1, value := p.2 } }]) := by
  refine ⟨?_, ?_, ?_, ?_, ?_⟩
  · intro s c hc
    simp [StepFile_ReadData.CreateNewArg, hc]
  · intro s c hc he
    simp [StepFile_ReadData.CreateErrorArg, hc, he]
  · intro s op
    by_cases hop : op = ProtocolOp.recordNewEntity
    · rw [hop]
      cases hc : s.myCurRec with
      | none =>
          refine ⟨[], ?_⟩
          simp [stepOp, StepFile_ReadData.RecordNewEntity, StepFile_ReadData.AddError, hc]
      | some c =>
          exact ⟨[c], (step_records_newEnt s hc).1⟩
    · refine ⟨[], ?_⟩
      rw [(step_records_other s op hop).1]
      simp
  · intro s i j r hir
    rw [List.get?_eq_getElem?] at hir
    simp [StepFile_ReadData.GetArgDescription, hir, List.get?_eq_getElem?]
  · intro idt ps
    have hstart : runOps emptyReadData (ProtocolOp.createNewText idt :: ProtocolOp.recordIdent ::
        (pushOps ps ++ [ProtocolOp.recordNewEntity]))
          = runOps (stepOp (stepOp emptyReadData (ProtocolOp.createNewText idt))
              ProtocolOp.recordIdent) (pushOps ps ++ [ProtocolOp.recordNewEntity]) := rfl
    rw [hstart, runOps_append]
    have hc0 : (stepOp (stepOp emptyReadData (ProtocolOp.createNewText idt))
        ProtocolOp.recordIdent).myCurRec = some { ident := idt, typ := "", args := [] } := rfl
    obtain ⟨a1, a2, a3⟩ := run_pushOps ps _ _ hc0
    set s1 := runOps (stepOp (stepOp emptyReadData (ProtocolOp.createNewText idt))
        ProtocolOp.recordIdent) (pushOps ps) with hs1
    have hsub : s1.mySubStack = [] := by rw [a3]; rfl
    have hrec : s1.myRecords = [] := by rw [a2]; rfl
    have hfin := step_records_newEnt s1 (by rw [a1])
    rw [show runOps s1 [ProtocolOp.recordNewEntity] = stepOp s1 ProtocolOp.recordNewEntity
      from rfl]
    rw [hfin.1, hrec]
    simp

/-- C3, witness: one concrete push on a session whose current record is
empty appends the pushed argument at the tail. -/
theorem argument_order_witness :
    (runOps emptyReadData
        [ProtocolOp.createNewText "#9", ProtocolOp.recordIdent,
         ProtocolOp.createNewText "V",
         ProtocolOp.setTypeArg Interface_ParamType.ParamText]).CreateNewArg.myCurRec
      = some { ident := "#9", typ := "",
               args := [{ kind := Interface_ParamType.ParamText, value := "V" }] } :=
  argument_order_matches_push_order.1
    (runOps emptyReadData
        [ProtocolOp.createNewText "#9", ProtocolOp.recordIdent,
         ProtocolOp.createNewText "V",
         ProtocolOp.setTypeArg Interface_ParamType.ParamText])
    { ident := "#9", typ := "", args := [] } rfl

/-- The last element of a text list, or the given default when empty. -/
def lastTextD : List String → String → String
  | [], d => d
  | t :: ts, _ => lastTextD ts t

/-- Modelled from the spec: the protocol events of a run of consecutive
error tokens: for each token the lexer interns its text and the grammar
reports an error argument. -/
def errRunOps : List String → List ProtocolOp
  | [] => []
  | t :: ts => ProtocolOp.createNewText t :: ProtocolOp.createErrorArg :: errRunOps ts

theorem errRun_update (ts : List String) :
    ∀ (s : StepFile_ReadData) (idt ty : String) (base : List Argument) (v : String),
      s.myErrorArg = true →
      s.myCurRec = some { ident := idt, typ := ty,
                          args := base ++ [{ kind := Interface_ParamType.ParamMisc,
                                             value := v }] } →
      (runOps s (errRunOps ts)).myCurRec
        = some { ident := idt, typ := ty,
                 args := base ++ [{ kind := Interface_ParamType.ParamMisc,
                                    value := lastTextD ts v }] }
      ∧ (runOps s (errRunOps ts)).myErrorArg = true
      ∧ (runOps s (errRunOps ts)).myNbPar = s.myNbPar := by
  induction ts with
  | nil =>
      intro s idt ty base v he hc
      exact ⟨hc, he, rfl⟩
  | cons t ts ih =>
      intro s idt ty base v he hc
      have hstep : runOps s (errRunOps (t :: ts))
          = runOps (stepOp (stepOp s (ProtocolOp.createNewText t)) ProtocolOp.createErrorArg)
              (errRunOps ts) := rfl
      have hc2 : (stepOp (stepOp s (ProtocolOp.createNewText t))
          ProtocolOp.createErrorArg).myCurRec
            = some { ident := idt, typ := ty,
                     args := base ++ [{ kind := Interface_ParamType.ParamMisc,
                                        value := t }] } := by
        simp [stepOp, StepFile_ReadData.CreateNewText, StepFile_ReadData.CreateErrorArg, hc, he,
          List.dropLast_concat]
      have he2 : (stepOp (stepOp s (ProtocolOp.createNewText t))
          ProtocolOp.createErrorArg).myErrorArg = true := by
        simp [stepOp, StepFile_ReadData.CreateNewText, StepFile_ReadData.CreateErrorArg, hc, he]
      have hp2 : (stepOp (stepOp s (ProtocolOp.createNewText t))
          ProtocolOp.createErrorArg).myNbPar = s.myNbPar := by
        simp [stepOp, StepFile_ReadData.CreateNewText, StepFile_ReadData.CreateErrorArg, hc, he]
      obtain ⟨a1, a2, a3⟩ := ih _ idt ty base t he2 hc2
      rw [hstep]
      refine ⟨?_, a2, ?_⟩
      · rw [a1]
        rfl
      · rw [a3, hp2]

/-- C5: a run of one or more consecutive error tokens starting at a fresh
argument position (error mode off) creates exactly one error-placeholder
argument, appended at the tail and carrying the text of the last token of
the run; the argument counter grows by exactly one for the whole run, the
error-argument-in-progress mode is left raised, and PrepareNewArg resets
it for the next argument position. -/
theorem error_run_single_argument (s : StepFile_ReadData) (idt ty : String)
    (args0 : List Argument) (t0 : String) (ts : List String)
    (hc : s.myCurRec = some { ident := idt, typ := ty, args := args0 })
    (he : s.myErrorArg = false) :
    (runOps s (errRunOps (t0 :: ts))).myCurRec
      = some { ident := idt, typ := ty,
               args := args0 ++ [{ kind := Interface_ParamType.ParamMisc,
                                   value := lastTextD ts t0 }] }
    ∧ (runOps s (errRunOps (t0 :: ts))).myErrorArg = true
    ∧ (runOps s (errRunOps (t0 :: ts))).myNbPar = s.myNbPar + 1
    ∧ ((runOps s (errRunOps (t0 :: ts))).PrepareNewArg).myErrorArg = false := by
  have hstep : runOps s (errRunOps (t0 :: ts))
      = runOps (stepOp (stepOp s (ProtocolOp.createNewText t0)) ProtocolOp.createErrorArg)
          (errRunOps ts) := rfl
  have hc2 : (stepOp (stepOp s (ProtocolOp.createNewText t0))
      ProtocolOp.createErrorArg).myCurRec
        = some { ident := idt, typ := ty,
                 args := args0 ++ [{ kind := Interface_ParamType.ParamMisc,
                                     value := t0 }] } := by
    simp [stepOp, StepFile_ReadData.CreateNewText, StepFile_ReadData.CreateErrorArg, hc, he]
  have he2 : (stepOp (stepOp s (ProtocolOp.createNewText t0))
      ProtocolOp.createErrorArg).myErrorArg = true := by
    simp [stepOp, StepFile_ReadData.CreateNewText, StepFile_ReadData.CreateErrorArg, hc, he]
  have hp2 : (stepOp (stepOp s (ProtocolOp.createNewText t0))
      ProtocolOp.createErrorArg).myNbPar = s.myNbPar + 1 := by
    simp [stepOp, StepFile_ReadData.CreateNewText, StepFile_ReadData.CreateErrorArg, hc, he]
  obtain ⟨a1, a2, a3⟩ := errRun_update ts _ idt ty args0 t0 he2 hc2
  rw [hstep]
  refine ⟨a1, a2, ?_, ?_⟩
  · rw [a3, hp2]
  · simp [StepFile_ReadData.PrepareNewArg]

/-- C5, witness: three consecutive error tokens on a record with one
argument yield exactly one further error-placeholder argument carrying
the last token's text, one argument counted, and PrepareNewArg lowers the
error mode again. -/
theorem error_run_single_argument_witness :
    (runOps (runOps emptyReadData
        [ProtocolOp.createNewText "#7", ProtocolOp.recordIdent,
         ProtocolOp.createNewText "A", ProtocolOp.setTypeArg Interface_ParamType.ParamText,
         ProtocolOp.createNewArg])
        (errRunOps ["@", "!", "?"])).myCurRec
      = some { ident := "#7", typ := "",
               args := [{ kind := Interface_ParamType.ParamText, value := "A" },
                        { kind := Interface_ParamType.ParamMisc, value := "?" }] }
    ∧ (runOps (runOps emptyReadData
        [ProtocolOp.createNewText "#7", ProtocolOp.recordIdent,
         ProtocolOp.createNewText "A", ProtocolOp.setTypeArg Interface_ParamType.ParamText,
         ProtocolOp.createNewArg])
        (errRunOps ["@", "!", "?"])).myNbPar = 2 := by
  have h := error_run_single_argument
    (runOps emptyReadData
        [ProtocolOp.createNewText "#7", ProtocolOp.recordIdent,
         ProtocolOp.createNewText "A", ProtocolOp.setTypeArg Interface_ParamType.ParamText,
         ProtocolOp.createNewArg])
    "#7" "" [{ kind := Interface_ParamType.ParamText, value := "A" }] "@" ["!", "?"]
    rfl rfl
  exact ⟨h.1, h.2.2.1⟩

/-- C6: FinalOfScope with no open scope logs exactly one structural
diagnostic and changes nothing else: the session is the same but for the
one appended error entry; in particular the current-record state and the
flat list are untouched. -/
theorem final_of_scope_on_empty_logs_one_error (s : StepFile_ReadData)
    (h : s.myScopes = []) :
    s.FinalOfScope = { s with myErrors := s.myErrors
        ++ ["End of scope without an open scope"] }
    ∧ s.FinalOfScope.myErrors.length = s.myErrors.length + 1
    ∧ s.FinalOfScope.myCurRec = s.myCurRec
    ∧ s.FinalOfScope.myRecords = s.myRecords := by
  refine ⟨?_, ?_, ?_, ?_⟩ <;>
    simp [StepFile_ReadData.FinalOfScope, StepFile_ReadData.AddError, h]

/-- C6, witness: a single FinalOfScope on the fresh session logs exactly
one diagnostic and leaves the record state at top level. -/
theorem final_of_scope_witness :
    emptyReadData.FinalOfScope.myErrors.length = emptyReadData.myErrors.length + 1
    ∧ emptyReadData.FinalOfScope.myCurRec = none :=
  ⟨(final_of_scope_on_empty_logs_one_error emptyReadData rfl).2.1,
   (final_of_scope_on_empty_logs_one_error emptyReadData rfl).2.2.1⟩

/-- C7: the error log contract: after AddError the last error is exactly
the recorded message (and the log grew by that one entry at the tail);
ErrorHandle drains every entry in original order into the supplied sink
without clearing the log, so draining twice with no intervening AddError
delivers the same messages in the same order again. -/
theorem error_log_last_and_drain (s : StepFile_ReadData) (m : String) (check : List String) :
    (s.AddError m).GetLastError = some m
    ∧ (s.AddError m).myErrors = s.myErrors ++ [m]
    ∧ s.ErrorHandle check = check ++ s.myErrors
    ∧ s.ErrorHandle (s.ErrorHandle check) = (check ++ s.myErrors) ++ s.myErrors := by
  refine ⟨?_, rfl, rfl, ?_⟩
  · simp [StepFile_ReadData.AddError, StepFile_ReadData.GetLastError]
  · simp [StepFile_ReadData.ErrorHandle]

theorem getLast?_decomp {α : Type} {l : List α} {x : α} (h : l.getLast? = some x) :
    l.dropLast ++ [x] = l := by
  induction l with
  | nil => simp at h
  | cons a l ih =>
      cases l with
      | nil =>
          simp at h
          simp [h]
      | cons b l' =>
          rw [List.getLast?_cons_cons] at h
          have hd : (a :: b :: l').dropLast = a :: (b :: l').dropLast := rfl
          rw [hd]
          simp only [List.cons_append]
          rw [ih h]

theorem read_append_stable {pc t : List Char} {off len : Nat} (h : off + len ≤ pc.length) :
    ((pc ++ t).drop off).take len = (pc.drop off).take len := by
  rw [List.drop_append_eq_append_drop]
  rw [List.take_append_eq_append_take]
  have h1 : off - pc.length = 0 := by omega
  have h2 : len - (pc.drop off).length = 0 := by
    rw [List.length_drop]
    omega
  rw [h1, h2]
  simp

/-- C8: interning bytes never loses or truncates them: reading the
returned slice back yields exactly the original bytes; the value is
stored whole within a single page (a fresh page is allocated first when
the remaining capacity would be exceeded, so slices never cross a page
boundary and the page cursor never exceeds its capacity); and every
previously valid slice still reads back the same bytes afterwards. -/
theorem create_new_text_round_trip (a : TextArena) (t : List Char) (sl : TextSlice)
    (hv : a.validSlice sl = true) :
    (a.createNewText t).1.readSlice (a.createNewText t).2 = t
    ∧ (∃ pg, (a.createNewText t).1.pages.get? (a.createNewText t).2.page = some pg
        ∧ (a.createNewText t).2.off + (a.createNewText t).2.len ≤ pg.chars.length
        ∧ pg.chars.length ≤ pg.cap)
    ∧ (a.createNewText t).1.readSlice sl = a.readSlice sl := by
  cases hlast : a.pages.getLast? with
  | none =>
      have hnil : a.pages = [] := List.getLast?_eq_none.1 hlast
      unfold TextArena.validSlice at hv
      rw [hnil] at hv
      simp at hv
  | some p =>
      have hdecomp : a.pages.dropLast ++ [p] = a.pages := getLast?_decomp hlast
      unfold TextArena.validSlice at hv
      cases hq : a.pages.get? sl.page with
      | none => rw [hq] at hv; simp at hv
      | some q =>
          rw [hq] at hv
          simp at hv
          by_cases hfit : p.chars.length + t.length ≤ p.cap
          · have hres : a.createNewText t
                = ({ a with pages := a.pages.dropLast ++ [{ p with chars := p.chars ++ t }] },
                   { page := a.pages.length - 1, off := p.chars.length, len := t.length }) := by
              unfold TextArena.createNewText
              rw [hlast]
              simp [hfit]
            rw [hres]
            have hlen : a.pages.dropLast.length = a.pages.length - 1 := List.length_dropLast _
            refine ⟨?_, ?_, ?_⟩
            · unfold TextArena.readSlice
              simp only
              rw [← hlen, List.get?_concat_length]
              simp [List.drop_left, List.take_length]
            · refine ⟨{ p with chars := p.chars ++ t }, ?_, ?_, ?_⟩
              · simp only
                rw [← hlen, List.get?_concat_length]
              · simp
              · simpa using hfit
            · have hrs : a.readSlice sl = (q.chars.drop sl.off).take sl.len := by
                unfold TextArena.readSlice
                rw [hq]
                simp
              rw [hrs]
              unfold TextArena.readSlice
              simp only
              rcases Nat.lt_or_ge sl.page a.pages.dropLast.length with hlt | hge
              · rw [← hdecomp, List.get?_append hlt] at hq
                rw [List.get?_append hlt, hq]
                simp
              · rcases Nat.eq_or_lt_of_le hge with heq | hgt
                · have hqp : q = p := by
                    rw [← hdecomp, ← heq, List.get?_concat_length] at hq
                    exact (Option.some.inj hq).symm
                  rw [← heq, List.get?_concat_length]
                  simp only [Option.getD_some]
                  rw [hqp] at hv
                  rw [hqp]
                  exact read_append_stable hv
                · exfalso
                  rw [← hdecomp, List.get?_append_right hge] at hq
                  have hone : 1 ≤ sl.page - a.pages.dropLast.length := by omega
                  rw [List.get?_eq_none.2 (by simpa using hone)] at hq
                  cases hq
          · have hres : a.createNewText t
                = ({ a with pages := a.pages ++ [{ chars := t, cap := max a.maxChar t.length }] },
                   { page := a.pages.length, off := 0, len := t.length }) := by
              unfold TextArena.createNewText
              rw [hlast]
              simp [hfit]
            rw [hres]
            refine ⟨?_, ?_, ?_⟩
            · unfold TextArena.readSlice
              simp only
              rw [List.get?_concat_length]
              simp [List.take_length]
            · refine ⟨{ chars := t, cap := max a.maxChar t.length }, ?_, ?_, ?_⟩
              · simp only
                rw [List.get?_concat_length]
              · simp
              · simp
            · unfold TextArena.readSlice
              simp only
              have hpl : sl.page < a.pages.length := by
                by_contra hge
                rw [List.get?_eq_none.2 (Nat.le_of_not_lt hge)] at hq
                cases hq
              rw [List.get?_append hpl]

/-- C8, witness: a concrete arena with one partially filled page, an
oversize intern, and a previously interned slice. -/
theorem create_new_text_round_trip_witness :
    ((TextArena.createNewText { maxChar := 4, pages := [{ chars := ['h', 'i'], cap := 4 }] }
        ['y', 'o', 'y', 'o']).1.readSlice
      (TextArena.createNewText { maxChar := 4, pages := [{ chars := ['h', 'i'], cap := 4 }] }
        ['y', 'o', 'y', 'o']).2) = ['y', 'o', 'y', 'o']
    ∧ ((TextArena.createNewText { maxChar := 4, pages := [{ chars := ['h', 'i'], cap := 4 }] }
        ['y', 'o', 'y', 'o']).1.readSlice { page := 0, off := 0, len := 2 })
      = (TextArena.readSlice { maxChar := 4, pages := [{ chars := ['h', 'i'], cap := 4 }] }
          { page := 0, off := 0, len := 2 }) := by
  have h := create_new_text_round_trip
    { maxChar := 4, pages := [{ chars := ['h', 'i'], cap := 4 }] }
    ['y', 'o', 'y', 'o'] { page := 0, off := 0, len := 2 } (by decide)
  exact ⟨h.1, h.2.2⟩

/-- The parse-relevant part of the session: everything except the trace
verbosity level. -/
def eraseMode (s : StepFile_ReadData) : StepFile_ReadData :=
  { s with myModePrint := 0 }

/-- Protocol events up to the verbosity level they carry. -/
def normPrintOp : ProtocolOp → ProtocolOp
  | ProtocolOp.setModePrint _ => ProtocolOp.setModePrint 0
  | op => op

theorem eraseMode_eta (s : StepFile_ReadData) :
    { eraseMode s with myModePrint := s.myModePrint } = s := by
  cases s
  rfl

theorem stepOp_modePrint (s : StepFile_ReadData) (m : Nat) (op : ProtocolOp) :
    eraseMode (stepOp { s with myModePrint := m } op) = eraseMode (stepOp s op) := by
  cases op with
  | createNewText t => rfl
  | setTypeArg k => rfl
  | recordIdent =>
      cases hc : s.myCurRec <;>
        simp [stepOp, StepFile_ReadData.RecordIdent, StepFile_ReadData.AddError, eraseMode, hc]
  | recordType =>
      cases hc : s.myCurRec <;>
        simp [stepOp, StepFile_ReadData.RecordType, eraseMode, hc]
  | recordListStart =>
      cases hc : s.myCurRec <;>
        simp [stepOp, StepFile_ReadData.RecordListStart, StepFile_ReadData.AddError, eraseMode, hc]
  | createNewArg =>
      cases hc : s.myCurRec <;>
        simp [stepOp, StepFile_ReadData.CreateNewArg, StepFile_ReadData.AddError, eraseMode, hc]
  | createErrorArg =>
      cases hc : s.myCurRec with
      | none =>
          simp [stepOp, StepFile_ReadData.CreateErrorArg, StepFile_ReadData.AddError, eraseMode, hc]
      | some c =>
          cases he : s.myErrorArg <;>
            simp [stepOp, StepFile_ReadData.CreateErrorArg, eraseMode, hc, he]
  | prepareNewArg => rfl
  | recordNewEntity =>
      cases hc : s.myCurRec with
      | none =>
          simp [stepOp, StepFile_ReadData.RecordNewEntity, StepFile_ReadData.AddError, eraseMode, hc]
      | some c =>
          cases hs : s.mySubStack <;>
            simp [stepOp, StepFile_ReadData.RecordNewEntity, eraseMode, hc, hs]
  | finalOfHead => rfl
  | addNewScope => rfl
  | finalOfScope =>
      cases hsc : s.myScopes <;>
        simp [stepOp, StepFile_ReadData.FinalOfScope, StepFile_ReadData.AddError, eraseMode, hsc]
  | addError t => rfl
  | setModePrint n => rfl

theorem normPrint_cases (op : ProtocolOp) :
    (∃ n, op = ProtocolOp.setModePrint n) ∨ normPrintOp op = op := by
  cases op <;> simp [normPrintOp]

theorem step_erase {s t : StepFile_ReadData} (op : ProtocolOp)
    (h : eraseMode s = eraseMode t) :
    eraseMode (stepOp s op) = eraseMode (stepOp t op) := by
  calc eraseMode (stepOp s op)
      = eraseMode (stepOp { eraseMode s with myModePrint := s.myModePrint } op) := by
        rw [eraseMode_eta]
    _ = eraseMode (stepOp (eraseMode s) op) := stepOp_modePrint (eraseMode s) s.myModePrint op
    _ = eraseMode (stepOp (eraseMode t) op) := by rw [h]
    _ = eraseMode (stepOp { eraseMode t with myModePrint := t.myModePrint } op) :=
        (stepOp_modePrint (eraseMode t) t.myModePrint op).symm
    _ = eraseMode (stepOp t op) := by rw [eraseMode_eta]

theorem step_erase_norm {s t : StepFile_ReadData} (op1 op2 : ProtocolOp)
    (hop : normPrintOp op1 = normPrintOp op2) (h : eraseMode s = eraseMode t) :
    eraseMode (stepOp s op1) = eraseMode (stepOp t op2) := by
  have hmode : ∀ (u : StepFile_ReadData) (n : Nat),
      eraseMode (stepOp u (ProtocolOp.setModePrint n)) = eraseMode u := fun u n => rfl
  rcases normPrint_cases op1 with ⟨n1, rfl⟩ | h1
  · have hx : ∃ n2, op2 = ProtocolOp.setModePrint n2 := by
      cases op2 <;> first | exact ⟨_, rfl⟩ | simp [normPrintOp] at hop
    obtain ⟨n2, rfl⟩ := hx
    rw [hmode, hmode]
    exact h
  · rcases normPrint_cases op2 with ⟨n2, rfl⟩ | h2
    · have hx : ∃ n1, op1 = ProtocolOp.setModePrint n1 := by
        cases op1 <;> first | exact ⟨_, rfl⟩ | simp [normPrintOp] at hop
      obtain ⟨n1, rfl⟩ := hx
      rw [hmode, hmode]
      exact h
    · rw [h1, h2] at hop
      rw [hop]
      exact step_erase op2 h

theorem run_erase (ops1 : List ProtocolOp) :
    ∀ (ops2 : List ProtocolOp) (s t : StepFile_ReadData),
      ops1.map normPrintOp = ops2.map normPrintOp → eraseMode s = eraseMode t →
      eraseMode (runOps s ops1) = eraseMode (runOps t ops2) := by
  induction ops1 with
  | nil =>
      intro ops2 s t hmap h
      cases ops2 with
      | nil => exact h
      | cons op2 rest2 => simp at hmap
  | cons op1 rest1 ih =>
      intro ops2 s t hmap h
      cases ops2 with
      | nil => simp at hmap
      | cons op2 rest2 =>
          simp only [List.map_cons, List.cons.injEq] at hmap
          exact ih rest2 (stepOp s op1) (stepOp t op2) hmap.2
            (step_erase_norm op1 op2 hmap.1 h)

/-- C9: the trace verbosity level does not influence the parse result:
two runs whose protocol sequences agree up to the levels passed to
SetModePrint, started at verbosity levels of their own, produce the same
flat record list, the same counters, the same current-record state and
the same error log. -/
theorem print_mode_independent (ops1 ops2 : List ProtocolOp) (m1 m2 : Nat)
    (hmap : ops1.map normPrintOp = ops2.map normPrintOp) :
    (runOps { emptyReadData with myModePrint := m1 } ops1).myRecords
      = (runOps { emptyReadData with myModePrint := m2 } ops2).myRecords
    ∧ (runOps { emptyReadData with myModePrint := m1 } ops1).myNbRec
      = (runOps { emptyReadData with myModePrint := m2 } ops2).myNbRec
    ∧ (runOps { emptyReadData with myModePrint := m1 } ops1).myNbHead
      = (runOps { emptyReadData with myModePrint := m2 } ops2).myNbHead
    ∧ (runOps { emptyReadData with myModePrint := m1 } ops1).myNbPar
      = (runOps { emptyReadData with myModePrint := m2 } ops2).myNbPar
    ∧ (runOps { emptyReadData with myModePrint := m1 } ops1).myCurRec
      = (runOps { emptyReadData with myModePrint := m2 } ops2).myCurRec
    ∧ (runOps { emptyReadData with myModePrint := m1 } ops1).myErrors
      = (runOps { emptyReadData with myModePrint := m2 } ops2).myErrors := by
  have h := run_erase ops1 ops2 { emptyReadData with myModePrint := m1 }
    { emptyReadData with myModePrint := m2 } hmap rfl
  refine ⟨?_, ?_, ?_, ?_, ?_, ?_⟩
  · have h2 := congrArg StepFile_ReadData.myRecords h
    simpa [eraseMode] using h2
  · have h2 := congrArg StepFile_ReadData.myNbRec h
    simpa [eraseMode] using h2
  · have h2 := congrArg StepFile_ReadData.myNbHead h
    simpa [eraseMode] using h2
  · have h2 := congrArg StepFile_ReadData.myNbPar h
    simpa [eraseMode] using h2
  · have h2 := congrArg StepFile_ReadData.myCurRec h
    simpa [eraseMode] using h2
  · have h2 := congrArg StepFile_ReadData.myErrors h
    simpa [eraseMode] using h2

/-- C9, witness: the scenario run at verbosity 1 with an extra
SetModePrint 5 produces the same flat list as at verbosity 2 with
SetModePrint 7. -/
theorem print_mode_independent_witness :
    (runOps { emptyReadData with myModePrint := 1 }
        (ProtocolOp.setModePrint 5 :: scenarioOps)).myRecords
      = (runOps { emptyReadData with myModePrint := 2 }
          (ProtocolOp.setModePrint 7 :: scenarioOps)).myRecords :=
  (print_mode_independent (ProtocolOp.setModePrint 5 :: scenarioOps)
    (ProtocolOp.setModePrint 7 :: scenarioOps) 1 2 rfl).1

/-- C10: the read-back accessors are total and signal exhaustion through
their result instead of faulting: GetRecordDescription yields nothing
exactly when the cursor has moved past the last record of the flat list
(also after NextRecord), GetArgDescription yields nothing exactly when
the record's argument chain is exhausted (or there is no record), and
whenever they yield data it is exactly the stored record or argument
description. -/
theorem readback_accessors_total (s : StepFile_ReadData) (i j : Nat) :
    (s.GetRecordDescription i = none ↔ s.myRecords.length ≤ i)
    ∧ (∀ r, s.myRecords.get? i = some r →
        s.GetRecordDescription i = some (r.ident, r.typ, r.args.length))
    ∧ (∀ r, s.myRecords.get? i = some r →
        (s.GetArgDescription i j = none ↔ r.args.length ≤ j))
    ∧ (∀ r a, s.myRecords.get? i = some r → r.args.get? j = some a →
        s.GetArgDescription i j = some (a.kind, a.value))
    ∧ (s.myRecords.get? i = none → s.GetArgDescription i j = none)
    ∧ (s.GetRecordDescription (NextRecord i) = none ↔ s.myRecords.length ≤ i + 1) := by
  refine ⟨?_, ?_, ?_, ?_, ?_, ?_⟩
  · rw [StepFile_ReadData.GetRecordDescription, Option.map_eq_none']
    exact List.get?_eq_none
  · intro r hir
    rw [List.get?_eq_getElem?] at hir
    simp [StepFile_ReadData.GetRecordDescription, hir]
  · intro r hir
    rw [List.get?_eq_getElem?] at hir
    simp only [StepFile_ReadData.GetArgDescription, List.get?_eq_getElem?, hir,
      Option.some_bind, Option.map_eq_none']
    exact List.getElem?_eq_none_iff
  · intro r a hir hja
    rw [List.get?_eq_getElem?] at hir
    rw [List.get?_eq_getElem?] at hja
    simp [StepFile_ReadData.GetArgDescription, hir, hja]
  · intro h
    rw [List.get?_eq_getElem?] at h
    simp [StepFile_ReadData.GetArgDescription, h]
  · rw [show NextRecord i = i + 1 from rfl]
    rw [StepFile_ReadData.GetRecordDescription, Option.map_eq_none']
    exact List.get?_eq_none

/-- C10, witness: on the scenario's finished session the first record is
described with valid data, and the cursor two steps further signals
exhaustion. -/
theorem readback_accessors_witness :
    (runOps emptyReadData scenarioOps).GetRecordDescription 0
      = some ("$1", "ADVANCED_FACE", 1)
    ∧ ((runOps emptyReadData scenarioOps).GetRecordDescription
        (NextRecord (NextRecord 0)) = none ↔ True) :=
  ⟨(readback_accessors_total (runOps emptyReadData scenarioOps) 0 0).2.1 scenarioSubRec rfl,
   by
     have hx := (readback_accessors_total (runOps emptyReadData scenarioOps) 2 0).1
     rw [show NextRecord (NextRecord 0) = 2 from rfl, hx]
     exact ⟨fun _ => trivial, fun _ => by decide⟩⟩
